import Mathlib

/-!
Verification of the pingmon terminal ping monitor (src/pingmon.py).

The Python source is shallowly embedded below: rolling histories
(collections.deque with maxlen) become lists with an explicit bounded
append, floating point values become rationals (all operations involved
are exact: max, comparisons, division by powers of two and ten), rich
Text values become lists of (text, style) segments, and the panel becomes
a record of its observable fields.  Theorems C1 .. C10 settle the frozen
claims about the program.
-/

set_option autoImplicit false

namespace Pingmon

/-! ### Constants (src/pingmon.py, lines 19-25) -/

def SPARK_CHARS : List Char := [' ', '▁', '▂', '▃', '▄', '▅', '▆', '▇', '█']

def DROP_CHAR : String := "░"

def HISTORY_SIZE : Nat := 30

def VITALS_SPARK_SIZE : Nat := 10

def HIGH_LATENCY_MS : ℚ := 100

def PANEL_WIDTH : Nat := 58

/-! ### History store: collections.deque with maxlen (lines 229-231, 249, 253, 266)

A Python deque with `maxlen = cap` appends at the tail and discards the
head element when the length would exceed the capacity. -/

/-- One `deque.append` on a deque with `maxlen = cap`. -/
def dequeAppend {α : Type} (cap : Nat) (buf : List α) (x : α) : List α :=
  if cap ≤ buf.length then buf.drop 1 ++ [x] else buf ++ [x]

/-- State of a `deque(maxlen := cap)` after appending the samples of `l`
in order, starting from the empty deque. -/
def dequeOfList {α : Type} (cap : Nat) (l : List α) : List α :=
  l.foldl (dequeAppend cap) []

theorem dequeOfList_append {α : Type} (cap : Nat) (l : List α) (x : α) :
    dequeOfList cap (l ++ [x]) = dequeAppend cap (dequeOfList cap l) x := by
  simp [dequeOfList, List.foldl_append]

/-- After appending all of `l`, the deque holds exactly the last `cap`
elements of `l` (all of `l` if it is shorter), in insertion order. -/
theorem dequeOfList_eq_drop {α : Type} (cap : Nat) (hcap : 0 < cap) (l : List α) :
    dequeOfList cap l = l.drop (l.length - cap) := by
  induction l using List.reverseRecOn with
  | nil => simp [dequeOfList]
  | append_singleton l x ih =>
    rw [dequeOfList_append, ih, dequeAppend]
    have hlen : (l.drop (l.length - cap)).length = l.length - (l.length - cap) := by
      simp
    by_cases h : l.length + 1 ≤ cap
    · have h0 : l.length - cap = 0 := by omega
      rw [h0]
      simp only [List.drop_zero, List.length_append, List.length_singleton]
      rw [if_neg (by omega)]
      have h1 : l.length + 1 - cap = 0 := by omega
      rw [h1, List.drop_zero]
    · have hc : cap ≤ l.length := by omega
      rw [if_pos (by rw [hlen]; omega), List.drop_drop, List.drop_append_eq_append_drop]
      simp only [List.length_append, List.length_singleton]
      have h3 : l.length - cap + 1 = l.length + 1 - cap := by omega
      have h4 : l.length + 1 - cap - l.length = 0 := by omega
      rw [h3, h4, List.drop_zero]

theorem dequeOfList_length {α : Type} (cap : Nat) (hcap : 0 < cap) (l : List α) :
    (dequeOfList cap l).length = min l.length cap := by
  rw [dequeOfList_eq_drop cap hcap l]
  simp only [List.length_drop]
  omega

/-- C1: For every history buffer with fixed capacity C (30 for latency, 10
for CPU and IO), after appending any N ≥ 0 samples, the readable sequence
has length min(N, C) and its elements are exactly the most recent
min(N, C) appended samples in insertion order (oldest to newest), with the
oldest element evicted on each append beyond capacity. -/
theorem C1_history_fifo :
    (∀ l : List (Option ℚ),
        (dequeOfList HISTORY_SIZE l).length = min l.length HISTORY_SIZE ∧
        dequeOfList HISTORY_SIZE l = l.drop (l.length - HISTORY_SIZE))
  ∧ (∀ l : List ℚ,
        (dequeOfList VITALS_SPARK_SIZE l).length = min l.length VITALS_SPARK_SIZE ∧
        dequeOfList VITALS_SPARK_SIZE l = l.drop (l.length - VITALS_SPARK_SIZE)) := by
  refine ⟨fun l => ⟨?_, ?_⟩, fun l => ⟨?_, ?_⟩⟩
  · exact dequeOfList_length HISTORY_SIZE (by decide) l
  · exact dequeOfList_eq_drop HISTORY_SIZE (by decide) l
  · exact dequeOfList_length VITALS_SPARK_SIZE (by decide) l
  · exact dequeOfList_eq_drop VITALS_SPARK_SIZE (by decide) l

/-! ### Session maxima (lines 232-233, 254, 267)

The main loop seeds `cpu_max = 1.0` and `io_max = 1.0` and updates them
each tick with `cpu_max = max(cpu_max, cpu_pct, 10.0)` and
`io_max = max(io_max, io_combined, 1024.0)`. -/

/-- Initial value of `cpu_max` (line 232). -/
def cpu_max_init : ℚ := 1

/-- Initial value of `io_max` (line 233). -/
def io_max_init : ℚ := 1

/-- Python's three-argument `max(m, s, fl)` as used on lines 254 and 267. -/
def sessionStep (fl m s : ℚ) : ℚ := max (max m s) fl

/-- Value of `cpu_max` after the CPU samples of `l` have been processed
by the loop, in order. -/
def cpuMaxAfter (l : List ℚ) : ℚ := l.foldl (sessionStep 10) cpu_max_init

/-- Value of `io_max` after the combined IO-rate samples of `l` have been
processed by the loop, in order. -/
def ioMaxAfter (l : List ℚ) : ℚ := l.foldl (sessionStep 1024) io_max_init

theorem sessionStep_le_left (fl m s : ℚ) : m ≤ sessionStep fl m s :=
  le_trans (le_max_left m s) (le_max_left _ fl)

theorem sessionStep_floor_le (fl m s : ℚ) : fl ≤ sessionStep fl m s :=
  le_max_right _ fl

theorem foldl_sessionStep_mono (fl : ℚ) (l : List ℚ) :
    ∀ init : ℚ, init ≤ l.foldl (sessionStep fl) init := by
  induction l with
  | nil => intro init; simp
  | cons x xs ih =>
    intro init
    exact le_trans (sessionStep_le_left fl init x) (ih (sessionStep fl init x))

theorem foldl_sessionStep_floor (fl : ℚ) (l : List ℚ) (hl : l ≠ []) :
    ∀ init : ℚ, fl ≤ l.foldl (sessionStep fl) init := by
  cases l with
  | nil => exact absurd rfl hl
  | cons x xs =>
    intro init
    exact le_trans (sessionStep_floor_le fl init x)
      (foldl_sessionStep_mono fl xs (sessionStep fl init x))

/-- C2 counterexample: the session maxima are seeded at 1.0 (line 232-233),
not at their floor values, so before the first tick the CPU maximum is
below its floor 10.0 and the IO maximum is below its floor 1024.0,
refuting both "seeded with its floor value" and "never falls below its
floor" for the zero-update sequence. -/
theorem C2_counterexample :
    cpuMaxAfter [] = 1 ∧ ioMaxAfter [] = 1 ∧
    cpuMaxAfter [] < 10 ∧ ioMaxAfter [] < 1024 := by
  refine ⟨rfl, rfl, ?_, ?_⟩ <;> norm_num [cpuMaxAfter, ioMaxAfter, cpu_max_init, io_max_init]

/-- C2 (amended): each per-metric session maximum is seeded at 1.0 (below
its floor) and updated every tick to max(current, newSample, floor) with
floor 10.0 for CPU and 1024.0 bytes/s for IO; across any sequence of
updates it is monotonically non-decreasing, every update result is at
least the floor, and hence from the first update onward it never falls
below its floor. -/
theorem C2_session_max :
    (∀ m s : ℚ, sessionStep 10 m s = max (max m s) 10 ∧
        m ≤ sessionStep 10 m s ∧ s ≤ sessionStep 10 m s ∧ 10 ≤ sessionStep 10 m s)
  ∧ (∀ m s : ℚ, sessionStep 1024 m s = max (max m s) 1024 ∧
        m ≤ sessionStep 1024 m s ∧ s ≤ sessionStep 1024 m s ∧ 1024 ≤ sessionStep 1024 m s)
  ∧ (∀ l l' : List ℚ, cpuMaxAfter l ≤ cpuMaxAfter (l ++ l'))
  ∧ (∀ l l' : List ℚ, ioMaxAfter l ≤ ioMaxAfter (l ++ l'))
  ∧ (∀ l : List ℚ, l ≠ [] → 10 ≤ cpuMaxAfter l)
  ∧ (∀ l : List ℚ, l ≠ [] → 1024 ≤ ioMaxAfter l) := by
  refine ⟨?_, ?_, ?_, ?_, ?_, ?_⟩
  · intro m s
    refine ⟨rfl, sessionStep_le_left _ m s, ?_, ?_⟩
    · exact le_trans (le_max_right m s) (le_max_left _ _)
    · exact sessionStep_floor_le _ m s
  · intro m s
    refine ⟨rfl, sessionStep_le_left _ m s, ?_, ?_⟩
    · exact le_trans (le_max_right m s) (le_max_left _ _)
    · exact sessionStep_floor_le _ m s
  · intro l l'
    rw [cpuMaxAfter, cpuMaxAfter, List.foldl_append]
    exact foldl_sessionStep_mono 10 l' _
  · intro l l'
    rw [ioMaxAfter, ioMaxAfter, List.foldl_append]
    exact foldl_sessionStep_mono 1024 l' _
  · intro l hl
    exact foldl_sessionStep_floor 10 l hl cpu_max_init
  · intro l hl
    exact foldl_sessionStep_floor 1024 l hl io_max_init

/-- C2 witness: the amended theorem applied at the concrete update
sequence [3.5] for CPU and [2048] for IO. -/
theorem C2_session_max_witness :
    cpuMaxAfter [] ≤ cpuMaxAfter ([] ++ [(3.5 : ℚ)]) ∧
    10 ≤ cpuMaxAfter [(3.5 : ℚ)] ∧ 1024 ≤ ioMaxAfter [(2048 : ℚ)] :=
  ⟨C2_session_max.2.2.1 [] [(3.5 : ℚ)],
   C2_session_max.2.2.2.2.1 [(3.5 : ℚ)] (by simp),
   C2_session_max.2.2.2.2.2 [(2048 : ℚ)] (by simp)⟩

/-! ### Sparkline quantization (lines 61-62 and 83-84)

Both renderers compute `idx = int((v / max_val) * 8); idx = min(idx, 8)`
and index `SPARK_CHARS` with the result.  Python's `int` on a float
truncates toward zero. -/

/-- Python `int(q)` on a real value: truncation toward zero. -/
def pyInt (q : ℚ) : ℤ := if 0 ≤ q then ⌊q⌋ else -⌊-q⌋

/-- The shared quantization index `min(int((v / max_val) * 8), 8)`. -/
def quantIdx (v max_val : ℚ) : ℤ := min (pyInt (v / max_val * 8)) 8

/-- Glyph lookup `SPARK_CHARS[idx]`.  All call sites pass a nonnegative
index (Python would index from the end of the string for a negative one), so
the out-of-range default is never reached under the claims' hypotheses. -/
def sparkChar (idx : ℤ) : Char := SPARK_CHARS.getD idx.toNat ' '

theorem pyInt_of_nonneg {q : ℚ} (hq : 0 ≤ q) : pyInt q = ⌊q⌋ := if_pos hq

/-- C3: for both quantization policies, with any fixed scale maxVal > 0,
the quantization index idx(v) = min(floor(v / maxVal * 8), 8) is monotonic
in v (for all v1 < v2, idx(v1) ≤ idx(v2)) and always lies in [0, 8] for
every non-negative v, including v > maxVal (clamped). -/
theorem C3_quantization :
    (∀ max_val v1 v2 : ℚ, 0 < max_val → 0 ≤ v1 → v1 < v2 →
        quantIdx v1 max_val ≤ quantIdx v2 max_val)
  ∧ (∀ max_val v : ℚ, 0 < max_val → 0 ≤ v →
        0 ≤ quantIdx v max_val ∧ quantIdx v max_val ≤ 8) := by
  constructor
  · intro max_val v1 v2 hm h1 h12
    have hx1 : (0 : ℚ) ≤ v1 / max_val * 8 := by positivity
    have hx2 : (0 : ℚ) ≤ v2 / max_val * 8 := by
      have : (0 : ℚ) ≤ v2 := le_of_lt (lt_of_le_of_lt h1 h12)
      positivity
    rw [quantIdx, quantIdx, pyInt_of_nonneg hx1, pyInt_of_nonneg hx2]
    refine min_le_min (Int.floor_le_floor ?_) le_rfl
    gcongr
  · intro max_val v hm hv
    have hx : (0 : ℚ) ≤ v / max_val * 8 := by positivity
    rw [quantIdx, pyInt_of_nonneg hx]
    refine ⟨le_min (Int.floor_nonneg.mpr hx) (by norm_num), min_le_right _ _⟩

/-- C3 witness: monotonicity and clamping at the concrete points
v1 = 3, v2 = 250, maxVal = 100 (250 exceeds the scale and clamps to 8). -/
theorem C3_quantization_witness :
    quantIdx 3 100 ≤ quantIdx 250 100 ∧
    (0 ≤ quantIdx 250 100 ∧ quantIdx 250 100 ≤ 8) :=
  ⟨C3_quantization.1 100 3 250 (by norm_num) (by norm_num) (by norm_num),
   C3_quantization.2 100 250 (by norm_num) (by norm_num)⟩

/-! ### Rich text model

A rich `Text` value is modelled as the ordered list of its appended
segments, each a (text, style) pair; `Text(" " * pad) + spark` prepends an
unstyled padding segment. -/

/-- One rich-text segment: the appended string and its style. -/
abbrev Seg : Type := String × String

/-- A rich Text value: the ordered list of its styled segments. -/
abbrev RText : Type := List Seg

/-- Unstyled padding segment of `n` blanks, from `Text(" " * pad)`. -/
def padSeg (n : Nat) : Seg := (String.mk (List.replicate n ' '), "")

/-- Total character length of a rich text value. -/
def textLen (t : RText) : Nat := (t.map (fun s => s.1.length)).sum

theorem textLen_cons (s : Seg) (t : RText) : textLen (s :: t) = s.1.length + textLen t := by
  simp [textLen]

theorem padSeg_len (n : Nat) : (padSeg n).1.length = n := by
  simp [padSeg, String.length]

/-! ### Latency sparkline (build_sparkline, lines 49-73) -/

/-- Python `max(latencies) if latencies else 1.0` (line 53). -/
def listMax1 : List ℚ → ℚ
  | [] => 1
  | x :: xs => xs.foldl max x

/-- The per-frame quantization scale of `build_sparkline` (lines 51-54):
`max_val = max(latencies) if latencies else 1.0; max_val = max(max_val, 5.0)`. -/
def latencyScale (values : List (Option ℚ)) : ℚ :=
  max (listMax1 (values.filterMap id)) 5

/-- One loop iteration of `build_sparkline` (lines 57-67): the segment
appended for one history entry. -/
def sparkCellLat (max_val : ℚ) : Option ℚ → Seg
  | none => (DROP_CHAR, "bold red")
  | some v =>
    let char := sparkChar (quantIdx v max_val)
    if v > HIGH_LATENCY_MS then (String.singleton char, "yellow")
    else (String.singleton char, "cyan")

/-- build_sparkline (lines 49-73): map every history entry to its styled
glyph segment and left-pad with blanks up to HISTORY_SIZE characters. -/
def build_sparkline (history : List (Option ℚ)) : RText :=
  let spark := history.map (sparkCellLat (latencyScale history))
  let pad := HISTORY_SIZE - history.length
  if 0 < pad then padSeg pad :: spark else spark

/-! ### Vitals sparkline (build_vitals_sparkline, lines 76-98) -/

/-- One loop iteration of `build_vitals_sparkline` (lines 82-92). -/
def sparkCellVitals (max_val : ℚ) (v : ℚ) : Seg :=
  let char := sparkChar (quantIdx v max_val)
  let ratio := if 0 < max_val then v / max_val else 0
  if ratio > 0.8 then (String.singleton char, "red")
  else if ratio > 0.6 then (String.singleton char, "yellow")
  else (String.singleton char, "cyan")

/-- build_vitals_sparkline (lines 76-98): auto-baseline scale
`max_val = max(session_max, 1.0)`, then map and left-pad to
VITALS_SPARK_SIZE characters. -/
def build_vitals_sparkline (history : List ℚ) (session_max : ℚ) : RText :=
  let max_val := max session_max 1
  let spark := history.map (sparkCellVitals max_val)
  let pad := VITALS_SPARK_SIZE - history.length
  if 0 < pad then padSeg pad :: spark else spark

theorem sparkCellLat_len (m : ℚ) (v? : Option ℚ) : (sparkCellLat m v?).1.length = 1 := by
  cases v? with
  | none => rfl
  | some v =>
    simp only [sparkCellLat]
    split <;> rfl

theorem sparkCellVitals_len (m v : ℚ) : (sparkCellVitals m v).1.length = 1 := by
  simp only [sparkCellVitals]
  split_ifs <;> rfl

theorem textLen_map_lat (m : ℚ) (h : List (Option ℚ)) :
    textLen (h.map (sparkCellLat m)) = h.length := by
  induction h with
  | nil => rfl
  | cons x xs ih =>
    rw [List.map_cons, textLen_cons, sparkCellLat_len, ih, List.length_cons]
    omega

theorem textLen_map_vitals (m : ℚ) (h : List ℚ) :
    textLen (h.map (sparkCellVitals m)) = h.length := by
  induction h with
  | nil => rfl
  | cons x xs ih =>
    rw [List.map_cons, textLen_cons, sparkCellVitals_len, ih, List.length_cons]
    omega

/-- Structure of the latency sparkline: an optional padding segment
followed by one glyph segment per history entry. -/
theorem build_sparkline_eq (h : List (Option ℚ)) :
    build_sparkline h =
      (if h.length < HISTORY_SIZE then [padSeg (HISTORY_SIZE - h.length)] else [])
        ++ h.map (sparkCellLat (latencyScale h)) := by
  simp only [build_sparkline]
  by_cases hlt : h.length < HISTORY_SIZE
  · rw [if_pos (by omega), if_pos hlt, List.singleton_append]
  · rw [if_neg (by omega), if_neg hlt, List.nil_append]

/-- Structure of the vitals sparkline, analogously. -/
theorem build_vitals_sparkline_eq (h : List ℚ) (sm : ℚ) :
    build_vitals_sparkline h sm =
      (if h.length < VITALS_SPARK_SIZE then [padSeg (VITALS_SPARK_SIZE - h.length)] else [])
        ++ h.map (sparkCellVitals (max sm 1)) := by
  simp only [build_vitals_sparkline]
  by_cases hlt : h.length < VITALS_SPARK_SIZE
  · rw [if_pos (by omega), if_pos hlt, List.singleton_append]
  · rw [if_neg (by omega), if_neg hlt, List.nil_append]

theorem foldl_max_spec (xs : List ℚ) :
    ∀ a : ℚ, (xs.foldl max a = a ∨ xs.foldl max a ∈ xs) ∧
      a ≤ xs.foldl max a ∧ ∀ y ∈ xs, y ≤ xs.foldl max a := by
  induction xs with
  | nil =>
    intro a
    exact ⟨Or.inl rfl, le_rfl, by simp⟩
  | cons b bs ih =>
    intro a
    simp only [List.foldl_cons]
    obtain ⟨hmem, hle, hall⟩ := ih (max a b)
    refine ⟨?_, le_trans (le_max_left a b) hle, ?_⟩
    · rcases hmem with heq | hmem
      · rcases max_choice a b with hab | hab
        · exact Or.inl (heq.trans hab)
        · exact Or.inr (by rw [heq, hab]; exact List.mem_cons_self b bs)
      · exact Or.inr (List.mem_cons_of_mem b hmem)
    · intro y hy
      rcases List.mem_cons.mp hy with rfl | hy
      · exact le_trans (le_max_right a y) hle
      · exact hall y hy

/-- Python's builtin `max` over a nonempty list is a member and an upper
bound of the list. -/
theorem listMax1_spec (l : List ℚ) (hl : l ≠ []) :
    listMax1 l ∈ l ∧ ∀ y ∈ l, y ≤ listMax1 l := by
  cases l with
  | nil => exact absurd rfl hl
  | cons x xs =>
    obtain ⟨hmem, hle, hall⟩ := foldl_max_spec xs x
    have hez : listMax1 (x :: xs) = xs.foldl max x := rfl
    rw [hez]
    refine ⟨?_, ?_⟩
    · rcases hmem with heq | hmem
      · rw [heq]; exact List.mem_cons_self x xs
      · exact List.mem_cons_of_mem x hmem
    · intro y hy
      rcases List.mem_cons.mp hy with rfl | hy
      · exact hle
      · exact hall y hy

/-- C4: the latency sparkline uses the per-frame scale
maxVal = max(maximum of non-dropped values in the current window, 5.0),
recomputed on every render; every dropped sample renders as the distinct
drop glyph in the alert color (not a ramp glyph), and every non-dropped
sample is colored by the fixed threshold: strictly above 100 ms gets the
warning color ("yellow"), otherwise the normal color ("cyan"). -/
theorem C4_latency_policy :
    (∀ h : List (Option ℚ), h.filterMap id ≠ [] →
        listMax1 (h.filterMap id) ∈ h.filterMap id ∧
        (∀ x ∈ h.filterMap id, x ≤ listMax1 (h.filterMap id)) ∧
        latencyScale h = max (listMax1 (h.filterMap id)) 5)
  ∧ (∀ h : List (Option ℚ),
        build_sparkline h =
          (if h.length < HISTORY_SIZE then [padSeg (HISTORY_SIZE - h.length)] else [])
            ++ h.map (sparkCellLat (latencyScale h)))
  ∧ (∀ m : ℚ, sparkCellLat m none = (DROP_CHAR, "bold red"))
  ∧ (∀ c ∈ SPARK_CHARS, String.singleton c ≠ DROP_CHAR)
  ∧ (∀ m v : ℚ,
        (sparkCellLat m (some v)).1 = String.singleton (sparkChar (quantIdx v m)) ∧
        (sparkCellLat m (some v)).2 = if v > HIGH_LATENCY_MS then "yellow" else "cyan") := by
  refine ⟨?_, build_sparkline_eq, fun m => rfl, ?_, ?_⟩
  · intro h hne
    obtain ⟨hmem, hub⟩ := listMax1_spec (h.filterMap id) hne
    exact ⟨hmem, hub, rfl⟩
  · intro c hc
    fin_cases hc <;> decide
  · intro m v
    constructor
    · simp only [sparkCellLat]
      split <;> rfl
    · simp only [sparkCellLat]
      split_ifs <;> rfl

/-- C4 witness: the policy theorem applied at the window
[some 3, none, some 150] (dropped sample present, one value above the
100 ms threshold) and to the drop cell at scale 150. -/
theorem C4_latency_policy_witness :
    (listMax1 ([some (3 : ℚ), none, some 150].filterMap id) ∈
        [some (3 : ℚ), none, some 150].filterMap id ∧
      (∀ x ∈ [some (3 : ℚ), none, some 150].filterMap id,
          x ≤ listMax1 ([some (3 : ℚ), none, some 150].filterMap id)) ∧
      latencyScale [some (3 : ℚ), none, some 150] =
        max (listMax1 ([some (3 : ℚ), none, some 150].filterMap id)) 5) ∧
    sparkCellLat 150 none = (DROP_CHAR, "bold red") :=
  ⟨C4_latency_policy.1 [some (3 : ℚ), none, some 150] (by decide),
   C4_latency_policy.2.2.1 150⟩

/-- C5: for every window fill level from 0 samples up to capacity, the
rendered sparkline has length exactly the fixed display width (30 cells
for latency, 10 for vitals), with blank padding characters preceding the
oldest real sample so the glyphs are aligned to the right edge. -/
theorem C5_padding :
    (∀ h : List (Option ℚ), h.length ≤ HISTORY_SIZE →
        textLen (build_sparkline h) = HISTORY_SIZE)
  ∧ (∀ (h : List ℚ) (sm : ℚ), h.length ≤ VITALS_SPARK_SIZE →
        textLen (build_vitals_sparkline h sm) = VITALS_SPARK_SIZE)
  ∧ (∀ h : List (Option ℚ), h.length < HISTORY_SIZE →
        build_sparkline h =
          padSeg (HISTORY_SIZE - h.length) :: h.map (sparkCellLat (latencyScale h)))
  ∧ (∀ (h : List ℚ) (sm : ℚ), h.length < VITALS_SPARK_SIZE →
        build_vitals_sparkline h sm =
          padSeg (VITALS_SPARK_SIZE - h.length) :: h.map (sparkCellVitals (max sm 1))) := by
  refine ⟨?_, ?_, ?_, ?_⟩
  · intro h hle
    rw [build_sparkline_eq h]
    by_cases hlt : h.length < HISTORY_SIZE
    · rw [if_pos hlt, List.singleton_append, textLen_cons, padSeg_len, textLen_map_lat]
      omega
    · rw [if_neg hlt, List.nil_append, textLen_map_lat]
      omega
  · intro h sm hle
    rw [build_vitals_sparkline_eq h sm]
    by_cases hlt : h.length < VITALS_SPARK_SIZE
    · rw [if_pos hlt, List.singleton_append, textLen_cons, padSeg_len, textLen_map_vitals]
      omega
    · rw [if_neg hlt, List.nil_append, textLen_map_vitals]
      omega
  · intro h hlt
    rw [build_sparkline_eq h, if_pos hlt, List.singleton_append]
  · intro h sm hlt
    rw [build_vitals_sparkline_eq h sm, if_pos hlt, List.singleton_append]

/-- C5 witness: the padding law applied to the empty latency window, to a
one-sample latency window, and to the empty CPU window. -/
theorem C5_padding_witness :
    textLen (build_sparkline []) = HISTORY_SIZE ∧
    textLen (build_vitals_sparkline [] 0) = VITALS_SPARK_SIZE ∧
    build_sparkline [some 12] =
      padSeg (HISTORY_SIZE - [some (12 : ℚ)].length)
        :: [some (12 : ℚ)].map (sparkCellLat (latencyScale [some 12])) :=
  ⟨C5_padding.1 [] (by decide), C5_padding.2.1 [] 0 (by decide),
   C5_padding.2.2.1 [some 12] (by decide)⟩

theorem filterMap_id_eq_nil_of_all_none (h : List (Option ℚ)) (hall : ∀ v ∈ h, v = none) :
    h.filterMap id = [] := by
  refine List.filterMap_eq_nil_iff.mpr ?_
  intro a ha
  simpa using hall a ha

theorem map_sparkCellLat_all_none (m : ℚ) (h : List (Option ℚ)) (hall : ∀ v ∈ h, v = none) :
    h.map (sparkCellLat m) = List.replicate h.length (DROP_CHAR, "bold red") := by
  induction h with
  | nil => rfl
  | cons x xs ih =>
    have hx : x = none := hall x (List.mem_cons_self x xs)
    rw [List.map_cons, hx, List.length_cons, List.replicate_succ]
    rw [ih (fun v hv => hall v (List.mem_cons_of_mem x hv))]
    rfl

/-- C10: for every latency window containing no non-dropped values (the
empty window or a window of only dropped samples), the latency sparkline
renderer is still total and well-defined: the quantization scale falls
back to 5.0 (no maximum is taken over an empty sequence), and each dropped
sample still renders as the drop glyph, so rendering never fails on an
all-dropped or empty window. -/
theorem C10_all_dropped_total :
    ∀ h : List (Option ℚ), (∀ v ∈ h, v = none) →
      latencyScale h = 5 ∧
      build_sparkline h =
        (if h.length < HISTORY_SIZE then [padSeg (HISTORY_SIZE - h.length)] else [])
          ++ List.replicate h.length (DROP_CHAR, "bold red") := by
  intro h hall
  have hnil : h.filterMap id = [] := filterMap_id_eq_nil_of_all_none h hall
  have hscale : latencyScale h = 5 := by
    rw [latencyScale, hnil]
    norm_num [listMax1]
  refine ⟨hscale, ?_⟩
  rw [build_sparkline_eq h, map_sparkCellLat_all_none _ h hall]

/-- C10 witness: the totality theorem applied at the empty window and at
the two-sample all-dropped window. -/
theorem C10_all_dropped_total_witness :
    (latencyScale [] = 5 ∧
      build_sparkline [] =
        (if ([] : List (Option ℚ)).length < HISTORY_SIZE
          then [padSeg (HISTORY_SIZE - ([] : List (Option ℚ)).length)] else [])
          ++ List.replicate ([] : List (Option ℚ)).length (DROP_CHAR, "bold red")) ∧
    (latencyScale [none, none] = 5 ∧
      build_sparkline [none, none] =
        (if ([none, none] : List (Option ℚ)).length < HISTORY_SIZE
          then [padSeg (HISTORY_SIZE - ([none, none] : List (Option ℚ)).length)] else [])
          ++ List.replicate ([none, none] : List (Option ℚ)).length (DROP_CHAR, "bold red")) :=
  ⟨C10_all_dropped_total [] (by simp),
   C10_all_dropped_total [none, none] (by simp)⟩

/-! ### Byte formatting (format_bytes, lines 103-111)

Python `f"{x:.Nf}"` renders the decimal closest to x with N digits,
breaking ties to even (the values reaching these call sites are exact
binary fractions, so the float is the stated quotient exactly). -/

/-- Round to the nearest integer, ties to even, as Python float
formatting does. -/
def roundHalfEven (q : ℚ) : ℤ :=
  if q - ⌊q⌋ > 1/2 then ⌊q⌋ + 1
  else if q - ⌊q⌋ < 1/2 then ⌊q⌋
  else if ⌊q⌋ % 2 = 0 then ⌊q⌋ else ⌊q⌋ + 1

/-- Python `f"{q:.0f}"` for a nonnegative value. -/
def formatF0 (q : ℚ) : String := toString (roundHalfEven q)

/-- Python `f"{q:.1f}"` for a nonnegative value. -/
def formatF1 (q : ℚ) : String :=
  toString (roundHalfEven (q * 10) / 10) ++ "." ++ toString (roundHalfEven (q * 10) % 10)

/-- format_bytes (lines 103-111); `1 << 30 = 1073741824`,
`1 << 20 = 1048576`, `1 << 10 = 1024`. -/
def format_bytes (n : ℚ) : String :=
  if n ≥ 1073741824 then formatF1 (n / 1073741824) ++ "G"
  else if n ≥ 1048576 then formatF0 (n / 1048576) ++ "M"
  else if n ≥ 1024 then formatF0 (n / 1024) ++ "K"
  else formatF0 n ++ "B"

/-- C8: the byte formatter uses binary 1024-multiples with 0 decimals for
raw bytes, K, and M, and 1 decimal for G, and on the spec's examples
returns: 0 → "0B", 1536 → "2K" (1536/1024 = 1.5 rounds to even 2),
5242880 → "5M", 2147483648 → "2.0G". -/
theorem C8_format_bytes :
    format_bytes 0 = "0B" ∧
    format_bytes 1536 = "2K" ∧
    format_bytes 5242880 = "5M" ∧
    format_bytes 2147483648 = "2.0G" := by
  refine ⟨?_, ?_, ?_, ?_⟩ <;>
    norm_num [format_bytes, formatF0, formatF1, roundHalfEven] <;> rfl

/-! ### Panel composer (build_panel, lines 165-218) -/

/-- Python `f"{s:<9}"`: left-justify to the given width with blanks. -/
def ljust (s : String) (w : Nat) : String :=
  s ++ String.mk (List.replicate (w - s.length) ' ')

/-- Python `sum(1 for v in values if v is None)` (line 168). -/
def dropCount (values : List (Option ℚ)) : Nat := values.countP (fun v => v.isNone)

/-- The observable state assembled by build_panel: alert flag, border
color, leading status glyph, latest-latency field, sparkline, and
trailing status text.  The rich Panel wrapper (ROUNDED box, title = host,
width 58) carries these unchanged to the render sink. -/
structure PanelState where
  alert : Bool
  border : String
  glyph : Seg
  latencyField : Seg
  spark : RText
  statusText : Seg

/-- build_panel (lines 165-218), restricted to the derived fields (the
host string only becomes the panel title). -/
def build_panel (history : List (Option ℚ)) : PanelState :=
  let values := history
  let drops := dropCount values
  let total := values.length
  let alert : Bool := decide (0 < drops)
  let border := if alert then "red" else "green"
  let glyph : Seg := if alert then (" ⚠ ", "bold yellow") else (" ● ", "bold green")
  let latest := values.getLast?.join
  let latencyField : Seg :=
    match latest with
    | some l =>
        (ljust (formatF1 l ++ "ms") 9,
         if l > HIGH_LATENCY_MS then "bold yellow" else "bold green")
    | none => ("timeout  ", "bold red")
  let statusText : Seg :=
    if alert then
      if drops = 1 then (toString drops ++ " drop! ", "bold red")
      else (toString drops ++ " drops!", "bold red")
    else if 0 < total then ("0% loss", "dim green")
    else ("waiting", "dim")
  ⟨alert, border, glyph, latencyField, build_sparkline history, statusText⟩

theorem dropCount_pos_iff (h : List (Option ℚ)) : 0 < dropCount h ↔ none ∈ h := by
  rw [dropCount, List.countP_pos_iff]
  constructor
  · rintro ⟨a, ha, hp⟩
    rw [Option.isNone_iff_eq_none] at hp
    rw [hp] at ha
    exact ha
  · intro hn
    exact ⟨none, hn, rfl⟩

theorem build_panel_latencyField (h : List (Option ℚ)) :
    (build_panel h).latencyField =
      match h.getLast?.join with
      | some l =>
          (ljust (formatF1 l ++ "ms") 9,
           if l > HIGH_LATENCY_MS then "bold yellow" else "bold green")
      | none => ("timeout  ", "bold red") := rfl

theorem dot_mem_formatF1 (l : ℚ) : '.' ∈ (formatF1 l).data := by
  simp [formatF1, String.data_append]

theorem ljust_formatF1_ne_timeout (l : ℚ) : ljust (formatF1 l ++ "ms") 9 ≠ "timeout  " := by
  intro heq
  have hdot : '.' ∈ (ljust (formatF1 l ++ "ms") 9).data := by
    simp [ljust, String.data_append]
    exact dot_mem_formatF1 l
  rw [heq] at hdot
  exact absurd hdot (by decide)

/-- C6 counterexample: on the empty window (the initial panel, rendered
before the first tick at line 243) the latest-reading field shows the
"timeout" placeholder although there is no most recent sample at all, so
"shows timeout iff the most recent sample is dropped" fails at the
concrete input []. -/
theorem C6_counterexample :
    ¬ ((build_panel []).latencyField.1 = "timeout  " ↔
        ([] : List (Option ℚ)).getLast? = some none) := by
  intro hiff
  have h1 : (build_panel []).latencyField.1 = "timeout  " := rfl
  have h2 := hiff.mp h1
  simp at h2

/-- C6 (amended): for every latency window, the panel's alert flag is true
if and only if the window contains at least one dropped sample; the border
color is red exactly when alert is true and green otherwise; and the
latest-reading field shows the literal "timeout" placeholder if and only
if the window is empty or the most recent sample is dropped (the alert
flag is independent: a window can have a red border while showing a
numeric latest reading). -/
theorem C6_panel_alert :
    (∀ h : List (Option ℚ), ((build_panel h).alert = true ↔ none ∈ h))
  ∧ (∀ h : List (Option ℚ),
        (build_panel h).border = if none ∈ h then "red" else "green")
  ∧ (∀ h : List (Option ℚ),
        ((build_panel h).latencyField.1 = "timeout  " ↔
          (h = [] ∨ h.getLast? = some none)))
  ∧ (∃ h₀ : List (Option ℚ), (build_panel h₀).alert = true ∧
        (build_panel h₀).border = "red" ∧
        (build_panel h₀).latencyField.1 = "20.0ms   ") := by
  have halert : ∀ h : List (Option ℚ), ((build_panel h).alert = true ↔ none ∈ h) := by
    intro h
    show (decide (0 < dropCount h) = true ↔ none ∈ h)
    rw [decide_eq_true_iff]
    exact dropCount_pos_iff h
  refine ⟨halert, ?_, ?_, ?_⟩
  · intro h
    show (if (decide (0 < dropCount h)) = true then "red" else "green")
      = if none ∈ h then "red" else "green"
    by_cases hn : none ∈ h
    · rw [if_pos hn, if_pos (by rw [decide_eq_true_iff]; exact (dropCount_pos_iff h).mpr hn)]
    · have hd : ¬ (decide (0 < dropCount h) = true) := by
        rw [decide_eq_true_iff]
        exact fun hp => hn ((dropCount_pos_iff h).mp hp)
      rw [if_neg hn, if_neg hd]
  · intro h
    rw [build_panel_latencyField h]
    cases hg : h.getLast? with
    | none =>
      have hh : h = [] := by simpa using hg
      simp [hh]
    | some x =>
      have hne : h ≠ [] := by
        intro hh
        rw [hh] at hg
        simp at hg
      cases x with
      | none => simp [hg]
      | some l =>
        simp only [Option.join]
        constructor
        · intro habs
          exact absurd habs (by simpa using ljust_formatF1_ne_timeout l)
        · intro hor
          rcases hor with hh | hlast
          · exact absurd hh hne
          · simp at hlast
  · refine ⟨[none, some 20], rfl, rfl, ?_⟩
    rw [build_panel_latencyField [none, some 20]]
    show ljust (formatF1 20 ++ "ms") 9 = "20.0ms   "
    have h200 : roundHalfEven ((20 : ℚ) * 10) = 200 := by
      norm_num [roundHalfEven]
    rw [formatF1, h200]
    rfl

theorem build_panel_statusText (h : List (Option ℚ)) :
    (build_panel h).statusText =
      if (decide (0 < dropCount h)) = true then
        if dropCount h = 1 then (toString (dropCount h) ++ " drop! ", "bold red")
        else (toString (dropCount h) ++ " drops!", "bold red")
      else if 0 < h.length then ("0% loss", "dim green")
      else ("waiting", "dim") := rfl

/-- C7: the panel's trailing status phrase is a total function of the
latency window: "waiting" when the window is empty, "0% loss" when the
window is non-empty with zero drops, the singular phrasing "1 drop!"
(padded with one alignment blank in the source) when exactly one sample
is dropped, and the plural phrasing "N drops!" with the exact drop count
when two or more samples are dropped. -/
theorem C7_status_phrase : ∀ h : List (Option ℚ),
    (h = [] → (build_panel h).statusText = ("waiting", "dim"))
  ∧ (h ≠ [] → dropCount h = 0 → (build_panel h).statusText = ("0% loss", "dim green"))
  ∧ (dropCount h = 1 → (build_panel h).statusText = ("1 drop! ", "bold red"))
  ∧ (2 ≤ dropCount h → (build_panel h).statusText =
      (toString (dropCount h) ++ " drops!", "bold red")) := by
  intro h
  refine ⟨?_, ?_, ?_, ?_⟩
  · rintro rfl
    rfl
  · intro hne hd
    rw [build_panel_statusText, hd]
    rw [if_neg (by simp), if_pos (List.length_pos.mpr hne)]
  · intro hd
    rw [build_panel_statusText, hd]
    rfl
  · intro hd
    rw [build_panel_statusText]
    rw [if_pos (by rw [decide_eq_true_iff]; omega), if_neg (by omega)]

/-- C7 witness: the status phrase at the empty window, a clean one-sample
window, a single-drop window, and a double-drop window. -/
theorem C7_status_phrase_witness :
    (build_panel []).statusText = ("waiting", "dim") ∧
    (build_panel [some 20]).statusText = ("0% loss", "dim green") ∧
    (build_panel [none]).statusText = ("1 drop! ", "bold red") ∧
    (build_panel [none, none]).statusText =
      (toString (dropCount [none, none]) ++ " drops!", "bold red") :=
  ⟨(C7_status_phrase []).1 rfl,
   (C7_status_phrase [some 20]).2.1 (by simp) rfl,
   (C7_status_phrase [none]).2.2.1 rfl,
   (C7_status_phrase [none, none]).2.2.2 (by norm_num [dropCount])⟩

/-! ### Latency acquisition (run_ping, lines 30-44)

The subprocess call and the regex search over its stdout are embedded as
a function of the process outcome.  The guarded exception classes
(subprocess.TimeoutExpired, OSError) are the failure constructors; a
completed process carries its captured stdout, searched with the regex
`time=(\d+\.?\d*)\s*ms`. -/

/-- Outcome of the guarded subprocess invocation of ping. -/
inductive PingOutcome : Type where
  | timeoutExpired : PingOutcome
  | osError : PingOutcome
  | completed (stdout : String) : PingOutcome

/-- Greedy run of regex digits `\d*`: the matched run and the rest. -/
def takeDigits : List Char → List Char × List Char
  | [] => ([], [])
  | c :: cs =>
    if c.isDigit then
      let p := takeDigits cs
      (c :: p.1, p.2)
    else ([], c :: cs)

/-- Python regex `\s`: the six ASCII whitespace characters. -/
def isPySpace (c : Char) : Bool :=
  c == ' ' || c == '\t' || c == '\n' || c == '\r' || c == '\x0b' || c == '\x0c'

/-- Greedy `\s*`: drop leading whitespace. -/
def dropPySpaces : List Char → List Char
  | [] => []
  | c :: cs => if isPySpace c then dropPySpaces cs else c :: cs

/-- Numeric value of a digit run. -/
def digitsVal (ds : List Char) : ℕ :=
  ds.foldl (fun a c => 10 * a + (c.toNat - 48)) 0

/-- The optional fractional part `\.?\d*`: its digits and the rest. -/
def fracOf : List Char → List Char × List Char
  | '.' :: r => takeDigits r
  | cs => ([], cs)

/-- Python `float(group(1))` for a captured group `\d+\.?\d*`. -/
def groupVal (intPart fracPart : List Char) : ℚ :=
  (digitsVal intPart : ℚ) + (digitsVal fracPart : ℚ) / ((10 : ℚ) ^ fracPart.length)

/-- Match of `time=(\d+\.?\d*)\s*ms` anchored at the start of `cs`,
returning the numeric value of the captured group.  The greedy parse is
the regex parse: digits, the dot, whitespace and the letter m are
disjoint, so no backtracking can produce a match the greedy scan misses. -/
def matchTimeAt (cs : List Char) : Option ℚ :=
  match cs with
  | 't' :: 'i' :: 'm' :: 'e' :: '=' :: rest =>
    if (takeDigits rest).1 = [] then none
    else if (dropPySpaces (fracOf (takeDigits rest).2).2).take 2 = ['m', 's'] then
      some (groupVal (takeDigits rest).1 (fracOf (takeDigits rest).2).1)
    else none
  | _ => none

/-- `re.search`: try the pattern at every position, leftmost first. -/
def searchTimeMs : List Char → Option ℚ
  | [] => none
  | c :: cs =>
    match matchTimeAt (c :: cs) with
    | some v => some v
    | none => searchTimeMs cs

/-- run_ping (lines 30-44): both guarded exception classes collapse to
None; a completed process yields the parsed millisecond value when the
regex matches the captured stdout, and None otherwise. -/
def run_ping : PingOutcome → Option ℚ
  | .timeoutExpired => none
  | .osError => none
  | .completed stdout => searchTimeMs stdout.toList

theorem groupVal_nonneg (a b : List Char) : 0 ≤ groupVal a b := by
  rw [groupVal]
  positivity

theorem matchTimeAt_nonneg (cs : List Char) (v : ℚ) (hv : matchTimeAt cs = some v) :
    0 ≤ v := by
  unfold matchTimeAt at hv
  split at hv
  · split_ifs at hv
    injection hv with hv
    rw [← hv]
    exact groupVal_nonneg _ _
  · exact absurd hv (by simp)

theorem searchTimeMs_nonneg (cs : List Char) : ∀ v : ℚ, searchTimeMs cs = some v → 0 ≤ v := by
  induction cs with
  | nil =>
    intro v hv
    exact absurd hv (by simp [searchTimeMs])
  | cons c cs ih =>
    intro v hv
    rw [searchTimeMs] at hv
    cases hm : matchTimeAt (c :: cs) with
    | some w =>
      rw [hm] at hv
      injection hv with hv
      rw [← hv]
      exact matchTimeAt_nonneg _ w hm
    | none =>
      rw [hm] at hv
      exact ih v hv

/-- C9: the latency acquisition never raises to its caller: on every
failure to obtain a numeric round-trip time (timeout, host unreachable or
other OS error, malformed output) it returns the dropped marker (None),
and otherwise it returns the parsed millisecond value; its result is
always either a non-negative millisecond value or the dropped marker. -/
theorem C9_run_ping_total :
    (run_ping PingOutcome.timeoutExpired = none)
  ∧ (run_ping PingOutcome.osError = none)
  ∧ (∀ s : String, searchTimeMs s.toList = none →
        run_ping (PingOutcome.completed s) = none)
  ∧ (∀ (s : String) (v : ℚ), searchTimeMs s.toList = some v →
        run_ping (PingOutcome.completed s) = some v)
  ∧ (∀ o : PingOutcome, run_ping o = none ∨ ∃ v, run_ping o = some v ∧ 0 ≤ v) := by
  refine ⟨rfl, rfl, fun s h => h, fun s v h => h, ?_⟩
  intro o
  cases o with
  | timeoutExpired => exact Or.inl rfl
  | osError => exact Or.inl rfl
  | completed s =>
    cases hs : searchTimeMs s.toList with
    | none => exact Or.inl hs
    | some v => exact Or.inr ⟨v, hs, searchTimeMs_nonneg _ v hs⟩

/-- C9 witness: a malformed stdout parses to the dropped marker, and a
well-formed ping reply line parses to its millisecond value. -/
theorem C9_run_ping_total_witness :
    run_ping (PingOutcome.completed "ping: unknown host") = none ∧
    run_ping (PingOutcome.completed "64 bytes: time=23 ms") =
      some (groupVal ['2', '3'] []) :=
  ⟨C9_run_ping_total.2.2.1 "ping: unknown host" rfl,
   C9_run_ping_total.2.2.2.1 "64 bytes: time=23 ms" (groupVal ['2', '3'] []) rfl⟩

end Pingmon
